import Mathlib

/-!
Shallow embedding of the riv image browser's core (`src/paths.rs`,
`src/sort.rs`, `src/ui.rs`, `src/program/mod.rs`,
`src/program/command_mode.rs`) and proofs about it.

Conventions:
* Rust `PathBuf` is modelled as `String`.
* Rust `usize` is modelled as `Nat`; the explicitly saturating operations
  (`saturating_sub`, `saturating_mul`, `saturating_add`) are modelled with
  truncated `Nat` subtraction and explicit clamping at `2^64 - 1`.
* A Rust function that can panic (`unwrap`, failed `assert!`, out-of-bounds
  `Vec` indexing, underflowing `usize` subtraction) is modelled as returning
  `Option`, with `none` for the panic.
-/

namespace Riv

/-- Largest value of a 64-bit `usize`. -/
def usizeMax : Nat := 2 ^ 64 - 1

/-- Rust `usize::saturating_mul`. -/
def usatMul (a b : Nat) : Nat := min (a * b) usizeMax

/-- Rust `usize::saturating_add`. -/
def usatAdd (a b : Nat) : Nat := min (a + b) usizeMax

/-- Rust's derived `Ord` on `Option<usize>` restricted to `>`:
`None` is smaller than every `Some`. Used by `Paths::set_actual_maximum`
(`if self.index > self.max_viewable_index()`). -/
def optNatGt : Option Nat → Option Nat → Bool
  | none, _ => false
  | some _, none => true
  | some a, some b => a > b

/-- `Paths` (src/paths.rs): all path information for the running program.
The `dest_folder` and `base_dir` fields are kept; `images` is the ordered
path list, `index` the current position, `art_len` the artificial
(user-facing) length and `art_len_orig` the originally requested cap. -/
structure Paths where
  images : List String
  dest_folder : String
  base_dir : String
  index : Option Nat
  art_len : Nat
  art_len_orig : Option Nat
  deriving Repr, DecidableEq

namespace Paths

/-- `PathsBuilder::new` followed by `build` (src/paths.rs:27-44,62-71):
index defaults to the first image when any exist, no soft cap. -/
def new (images : List String) (dest_folder base_dir : String) : Paths :=
  { images := images
    dest_folder := dest_folder
    base_dir := base_dir
    index := if images.length = 0 then none else some 0
    art_len := images.length
    art_len_orig := none }

/-- `PathsBuilder::with_maximum_viewable` (src/paths.rs:47-59). -/
def with_maximum_viewable (p : Paths) (cap : Nat) : Paths :=
  if cap = 0 then
    { p with art_len := p.images.length, art_len_orig := none }
  else
    { p with art_len := min cap p.images.length, art_len_orig := some cap }

/-- `Paths::max_viewable` (src/paths.rs:218-224). -/
def max_viewable (p : Paths) : Option Nat :=
  if p.art_len = 0 then none else some p.art_len

/-- `Paths::max_viewable_index` (src/paths.rs:212-215), using
`saturating_sub 1`. -/
def max_viewable_index (p : Paths) : Option Nat :=
  p.max_viewable.map (fun n => n - 1)

/-- `Paths::set_index` (src/paths.rs:109-118). Panics (`none`) when there
are no viewable images (`unwrap` of `max_viewable_index`) or when `i` is
past the maximum viewable index. -/
def set_index (p : Paths) (i : Nat) : Option Paths :=
  match p.max_viewable_index with
  | none => none
  | some m => if i > m then none else some { p with index := some i }

/-- `Paths::index` accessor is the `index` field.
`Paths::current_image_path` (src/paths.rs:205-209); the source indexes
`self.images[current_index]` directly (a panic if out of bounds), modelled
with `List.get?`. -/
def current_image_path (p : Paths) : Option String :=
  p.index.bind (fun i => p.images.get? i)

/-- `Paths::reload_images` (src/paths.rs:157-175). -/
def reload_images (p : Paths) (new_images : List String) : Paths :=
  if new_images.length = 0 then
    { p with images := new_images, index := none, art_len := 0 }
  else
    { p with
      images := new_images
      index := some 0
      art_len :=
        match p.art_len_orig with
        | some orig_art_len => min orig_art_len new_images.length
        | none => new_images.length }

/-- `Paths::reverse` (src/paths.rs:178-188). The image vector is reversed
first; if there is no viewable image the function returns early. Otherwise
`self.index.unwrap()` panics when `index` is `None`, and the `usize`
subtraction `max_viewable_index - index` panics (debug) on underflow. -/
def reverse (p : Paths) : Option Paths :=
  let p1 := { p with images := p.images.reverse }
  match p1.max_viewable_index with
  | none => some p1
  | some m =>
    match p1.index with
    | none => none
    | some i => if i > m then none else p1.set_index (m - i)

/-- `Paths::remove_image` (src/paths.rs:232-257). `none` models a panic:
the `assert!(index < len)`, the out-of-bounds `Vec::remove`, or the
`self.index.unwrap()`. `checked_sub(1)` is assigned back to the (optional)
index field. -/
def remove_image (p : Paths) (index : Nat) : Option Paths :=
  match p.max_viewable with
  | none => some p
  | some len =>
    if index < len then
      if index < p.images.length then
        let images' := p.images.eraseIdx index
        let art_len' := p.art_len - 1
        let new_len := len - 1
        if new_len = 0 then
          some { p with images := images', art_len := art_len', index := none }
        else if index ≥ new_len then
          match p.index with
          | none => none
          | some i =>
            some { p with
              images := images'
              art_len := art_len'
              index := if i = 0 then none else some (i - 1) }
        else
          some { p with images := images', art_len := art_len' }
      else none
    else none

/-- `Paths::remove_current_image` (src/paths.rs:260-265). -/
def remove_current_image (p : Paths) : Option Paths :=
  match p.index with
  | none => some p
  | some i => p.remove_image i

/-- `Paths::decrement` (src/paths.rs:270-274), `saturating_sub`. -/
def decrement (p : Paths) (step : Nat) : Paths :=
  match p.index with
  | none => p
  | some i => { p with index := some (i - step) }

/-- `Paths::increment` (src/paths.rs:277-292). `none` models a panic:
the unchecked `usize` addition `i + step` (src/paths.rs:279) when it
overflows `usize` (a panic under debug assertions, a wrap in release),
or the `unwrap` of `max_viewable_index` when there are no viewable images
but an index is present. -/
def increment (p : Paths) (step : Nat) : Option Paths :=
  match p.index with
  | none => some p
  | some i =>
    if i + step > usizeMax then none
    else
      match p.max_viewable_index with
      | none => none
      | some m =>
        some { p with index := some (if i + step ≥ m then m else i + step) }

/-- `Paths::set_actual_maximum` (src/paths.rs:296-309). -/
def set_actual_maximum (p : Paths) (art_max : Nat) : Paths :=
  if art_max = 0 then
    { p with art_len_orig := none, art_len := p.images.length }
  else
    let p' := { p with
      art_len_orig := some art_max
      art_len := min art_max p.images.length }
    if optNatGt p'.index p'.max_viewable_index then
      { p' with index := p'.max_viewable_index }
    else p'

end Paths

/-- The current index, when present, is below the artificial length. -/
def Paths.indexWithinBounds (p : Paths) : Prop :=
  ∀ i, p.index = some i → i < p.art_len

instance (p : Paths) : Decidable p.indexWithinBounds :=
  match h : p.index with
  | none =>
    isTrue (by intro i hi; rw [h] at hi; cases hi)
  | some j =>
    if hj : j < p.art_len then
      isTrue (by intro i hi; rw [h] at hi; cases hi; exact hj)
    else
      isFalse (by intro hall; exact hj (hall j h))

/-- Well-formedness of a `Paths` value, maintained by every public
operation: the artificial length never exceeds the number of stored
images, the index is absent when nothing is viewable, and a present index
is below the artificial length. -/
def PathsInv (p : Paths) : Prop :=
  p.art_len ≤ p.images.length ∧ (p.art_len = 0 → p.index = none) ∧
    p.indexWithinBounds

instance (p : Paths) : Decidable (PathsInv p) := by
  unfold PathsInv; infer_instance

/-- The four registry operations quantified over by the index-bound
invariant claim. -/
inductive PathsOp where
  | increment (step : Nat)
  | decrement (step : Nat)
  | removeCurrent
  | setActualMaximum (n : Nat)
  deriving Repr, DecidableEq

/-- Run one registry operation; `none` is a panic. -/
def applyOp (p : Paths) : PathsOp → Option Paths
  | .increment s => p.increment s
  | .decrement s => some (p.decrement s)
  | .removeCurrent => p.remove_current_image
  | .setActualMaximum n => some (p.set_actual_maximum n)

/-- Run a sequence of registry operations; `none` is a panic. -/
def runOps (p : Paths) : List PathsOp → Option Paths
  | [] => some p
  | op :: rest => (applyOp p op).bind (fun q => runOps q rest)

/-- `compute_skip_size` (src/program/mod.rs:826-832):
`images.len() / 10 + 1`, then clamped below by `1`. -/
def compute_skip_size (images : List String) : Nat :=
  max 1 (images.length / 10 + 1)

/-- `Program::skip_forward` (src/program/mod.rs:171-174) on the registry:
`increment(skip_size * times)`. -/
def Paths.skip_forward (p : Paths) (times : Nat) : Option Paths :=
  p.increment (compute_skip_size p.images * times)

/-- `Program::skip_backward` (src/program/mod.rs:177-180) on the registry. -/
def Paths.skip_backward (p : Paths) (times : Nat) : Paths :=
  p.decrement (compute_skip_size p.images * times)

/-- Is the operation `set_actual_maximum`? -/
def PathsOp.isSetMax : PathsOp → Bool
  | .setActualMaximum _ => true
  | _ => false

lemma max_viewable_index_of_pos (p : Paths) (h : p.art_len ≠ 0) :
    p.max_viewable_index = some (p.art_len - 1) := by
  simp [Paths.max_viewable_index, Paths.max_viewable, h]

lemma inv_increment (p : Paths) (h : PathsInv p) (s : Nat)
    (hs : s + p.images.length ≤ usizeMax) :
    ∃ q, p.increment s = some q ∧ PathsInv q := by
  obtain ⟨h1, h2, h3⟩ := h
  cases hidx : p.index with
  | none =>
    refine ⟨p, ?_, h1, h2, h3⟩
    simp [Paths.increment, hidx]
  | some i =>
    have hi : i < p.art_len := h3 i hidx
    have hart : p.art_len ≠ 0 := by omega
    have hilen : i < p.images.length := by omega
    have hnov : ¬ i + s > usizeMax := by omega
    refine ⟨{ p with index := some (if i + s ≥ p.art_len - 1 then p.art_len - 1 else i + s) }, ?_, ?_, ?_, ?_⟩
    · simp [Paths.increment, hidx, hnov, max_viewable_index_of_pos p hart]
    · exact h1
    · intro h0
      have h0' : p.art_len = 0 := h0
      exact absurd h0' hart
    · intro j hj
      have hj' : some (if i + s ≥ p.art_len - 1 then p.art_len - 1 else i + s)
          = some j := hj
      cases hj'
      show (if i + s ≥ p.art_len - 1 then p.art_len - 1 else i + s) < p.art_len
      split <;> omega

lemma inv_decrement (p : Paths) (h : PathsInv p) (s : Nat) :
    PathsInv (p.decrement s) := by
  obtain ⟨h1, h2, h3⟩ := h
  cases hidx : p.index with
  | none =>
    have he : p.decrement s = p := by simp [Paths.decrement, hidx]
    rw [he]
    exact ⟨h1, h2, h3⟩
  | some i =>
    have hi : i < p.art_len := h3 i hidx
    have he : p.decrement s = { p with index := some (i - s) } := by
      simp [Paths.decrement, hidx]
    rw [he]
    refine ⟨h1, ?_, ?_⟩
    · intro h0
      have h0' : p.art_len = 0 := h0
      exact absurd h0' (by omega)
    · intro j hj
      have hj' : some (i - s) = some j := hj
      cases hj'
      show i - s < p.art_len
      omega

lemma inv_set_actual_maximum (p : Paths) (h : PathsInv p) (n : Nat) :
    PathsInv (p.set_actual_maximum n) := by
  obtain ⟨h1, h2, h3⟩ := h
  by_cases hn : n = 0
  · have he : p.set_actual_maximum n =
        { p with art_len_orig := none, art_len := p.images.length } := by
      simp [Paths.set_actual_maximum, hn]
    rw [he]
    refine ⟨le_refl _, ?_, ?_⟩
    · intro h0
      have h0' : p.images.length = 0 := h0
      show p.index = none
      exact h2 (by omega)
    · intro j hj
      have hj' : p.index = some j := hj
      have := h3 j hj'
      show j < p.images.length
      omega
  · cases hidx : p.index with
    | none =>
      have he : p.set_actual_maximum n = { p with
          art_len_orig := some n, art_len := min n p.images.length } := by
        simp [Paths.set_actual_maximum, hn, hidx, optNatGt]
      rw [he]
      refine ⟨min_le_right _ _, fun _ => hidx, ?_⟩
      intro j hj
      have hj' : p.index = some j := hj
      rw [hidx] at hj'
      cases hj'
    | some i =>
      have hi : i < p.art_len := h3 i hidx
      have hlen : p.images.length ≠ 0 := by omega
      have hminpos : min n p.images.length ≠ 0 := by
        omega
      by_cases hgt : i > min n p.images.length - 1
      · have he : p.set_actual_maximum n = { p with
            art_len_orig := some n
            art_len := min n p.images.length
            index := some (min n p.images.length - 1) } := by
          simp [Paths.set_actual_maximum, hn, hidx, optNatGt,
            Paths.max_viewable_index, Paths.max_viewable, hminpos, hgt]
        rw [he]
        refine ⟨min_le_right _ _, ?_, ?_⟩
        · intro h0
          have h0' : min n p.images.length = 0 := h0
          exact absurd h0' hminpos
        · intro j hj
          have hj' : some (min n p.images.length - 1) = some j := hj
          cases hj'
          show min n p.images.length - 1 < min n p.images.length
          omega
      · have he : p.set_actual_maximum n = { p with
            art_len_orig := some n, art_len := min n p.images.length } := by
          simp [Paths.set_actual_maximum, hn, hidx, optNatGt,
            Paths.max_viewable_index, Paths.max_viewable, hminpos, hgt]
        rw [he]
        refine ⟨min_le_right _ _, ?_, ?_⟩
        · intro h0
          have h0' : min n p.images.length = 0 := h0
          exact absurd h0' hminpos
        · intro j hj
          have hj' : p.index = some j := hj
          rw [hidx] at hj'
          cases hj'
          show i < min n p.images.length
          omega

lemma remove_current_some (p : Paths) (i : Nat) (h : PathsInv p)
    (hidx : p.index = some i) :
    ∃ q, p.remove_current_image = some q ∧ q.art_len = p.art_len - 1 ∧
      q.images.length = p.images.length - 1 ∧ PathsInv q := by
  obtain ⟨h1, h2, h3⟩ := h
  have hi : i < p.art_len := h3 i hidx
  have hart : p.art_len ≠ 0 := by omega
  have hilen : i < p.images.length := lt_of_lt_of_le hi h1
  have herase : (p.images.eraseIdx i).length = p.images.length - 1 := by
    rw [List.length_eraseIdx]
    simp [hilen]
  have hstep : p.remove_current_image = p.remove_image i := by
    simp [Paths.remove_current_image, hidx]
  rw [hstep]
  by_cases hone : p.art_len - 1 = 0
  · have he : p.remove_image i = some { p with
        images := p.images.eraseIdx i, art_len := p.art_len - 1,
        index := none } := by
      simp [Paths.remove_image, Paths.max_viewable, hart, hi, hilen, hone]
    refine ⟨_, he, rfl, herase, ?_, fun _ => rfl, ?_⟩
    · show p.art_len - 1 ≤ (p.images.eraseIdx i).length
      omega
    · intro j hj
      have hj' : (none : Option Nat) = some j := hj
      cases hj'
  · by_cases hlast : i ≥ p.art_len - 1
    · have hi1 : i ≠ 0 := by omega
      have he : p.remove_image i = some { p with
          images := p.images.eraseIdx i
          art_len := p.art_len - 1
          index := some (i - 1) } := by
        simp [Paths.remove_image, Paths.max_viewable, hart, hi, hilen, hone,
          hlast, hidx, hi1]
      refine ⟨_, he, rfl, herase, ?_, ?_, ?_⟩
      · show p.art_len - 1 ≤ (p.images.eraseIdx i).length
        omega
      · intro h0
        have h0' : p.art_len - 1 = 0 := h0
        exact absurd h0' hone
      · intro j hj
        have hj' : some (i - 1) = some j := hj
        cases hj'
        show i - 1 < p.art_len - 1
        omega
    · have he : p.remove_image i = some { p with
          images := p.images.eraseIdx i, art_len := p.art_len - 1 } := by
        simp [Paths.remove_image, Paths.max_viewable, hart, hi, hilen, hone,
          hlast]
      refine ⟨_, he, rfl, herase, ?_, ?_, ?_⟩
      · show p.art_len - 1 ≤ (p.images.eraseIdx i).length
        omega
      · intro h0
        have h0' : p.art_len - 1 = 0 := h0
        exact absurd h0' hone
      · intro j hj
        have hj' : p.index = some j := hj
        rw [hidx] at hj'
        cases hj'
        show i < p.art_len - 1
        omega

lemma inv_remove_current (p : Paths) (h : PathsInv p) :
    ∃ q, p.remove_current_image = some q ∧ PathsInv q := by
  cases hidx : p.index with
  | none =>
    exact ⟨p, by simp [Paths.remove_current_image, hidx], h⟩
  | some i =>
    obtain ⟨q, hq, _, _, hinv⟩ := remove_current_some p i h hidx
    exact ⟨q, hq, hinv⟩

lemma images_len_remove_image (p : Paths) (i : Nat) (q : Paths)
    (h : p.remove_image i = some q) : q.images.length ≤ p.images.length := by
  unfold Paths.remove_image at h
  cases hmv : p.max_viewable with
  | none =>
    rw [hmv] at h
    cases h
    exact le_refl _
  | some len =>
    rw [hmv] at h
    dsimp only at h
    by_cases h1 : i < len
    · rw [if_pos h1] at h
      by_cases h2 : i < p.images.length
      · rw [if_pos h2] at h
        have he : (p.images.eraseIdx i).length ≤ p.images.length := by
          rw [List.length_eraseIdx]
          split <;> omega
        by_cases h3 : len - 1 = 0
        · rw [if_pos h3] at h
          cases h
          exact he
        · rw [if_neg h3] at h
          by_cases h4 : i ≥ len - 1
          · rw [if_pos h4] at h
            cases hx : p.index with
            | none => rw [hx] at h; cases h
            | some j =>
              rw [hx] at h
              cases h
              exact he
          · rw [if_neg h4] at h
            cases h
            exact he
      · rw [if_neg h2] at h
        cases h
    · rw [if_neg h1] at h
      cases h

lemma increment_some_shape (p : Paths) (s : Nat) (q : Paths)
    (h : p.increment s = some q) :
    q.art_len = p.art_len ∧ q.images = p.images := by
  unfold Paths.increment at h
  cases hidx : p.index with
  | none =>
    rw [hidx] at h
    cases h
    exact ⟨rfl, rfl⟩
  | some i =>
    rw [hidx] at h
    dsimp only at h
    by_cases hov : i + s > usizeMax
    · rw [if_pos hov] at h
      cases h
    · rw [if_neg hov] at h
      cases hmv : p.max_viewable_index <;> rw [hmv] at h
      · cases h
      · cases h
        exact ⟨rfl, rfl⟩

lemma images_set_actual_maximum (p : Paths) (n : Nat) :
    (p.set_actual_maximum n).images = p.images := by
  unfold Paths.set_actual_maximum
  split
  · rfl
  · dsimp only
    split <;> rfl

lemma images_decrement (p : Paths) (s : Nat) :
    (p.decrement s).images = p.images := by
  unfold Paths.decrement
  cases p.index <;> rfl

lemma images_len_applyOp_le (p : Paths) (op : PathsOp) (q : Paths)
    (h : applyOp p op = some q) : q.images.length ≤ p.images.length := by
  cases op with
  | increment s =>
    rw [(increment_some_shape p s q h).2]
  | decrement s =>
    cases h
    rw [images_decrement]
  | removeCurrent =>
    unfold applyOp Paths.remove_current_image at h
    cases hidx : p.index <;> rw [hidx] at h
    · cases h; exact le_refl _
    · exact images_len_remove_image p _ q h
  | setActualMaximum n =>
    cases h
    rw [images_set_actual_maximum]

lemma inv_applyOp (p : Paths) (h : PathsInv p) (op : PathsOp)
    (hop : ∀ s, op = .increment s → s + p.images.length ≤ usizeMax) :
    ∃ q, applyOp p op = some q ∧ PathsInv q := by
  cases op with
  | increment s => exact inv_increment p h s (hop s rfl)
  | decrement s => exact ⟨_, rfl, inv_decrement p h s⟩
  | removeCurrent => exact inv_remove_current p h
  | setActualMaximum n => exact ⟨_, rfl, inv_set_actual_maximum p h n⟩

lemma inv_runOps (ops : List PathsOp) (p : Paths) (h : PathsInv p)
    (hsteps : ∀ s, PathsOp.increment s ∈ ops → s + p.images.length ≤ usizeMax) :
    ∃ q, runOps p ops = some q ∧ PathsInv q := by
  induction ops generalizing p with
  | nil => exact ⟨p, rfl, h⟩
  | cons op rest ih =>
    obtain ⟨q, hq, hinv⟩ := inv_applyOp p h op
      (fun s hs => hsteps s (by rw [hs]; exact List.mem_cons_self _ _))
    have hqlen : q.images.length ≤ p.images.length :=
      images_len_applyOp_le p op q hq
    obtain ⟨r, hr, hrinv⟩ := ih q hinv
      (fun s hs => by
        have := hsteps s (List.mem_cons_of_mem _ hs)
        omega)
    exact ⟨r, by simp [runOps, hq, hr], hrinv⟩

lemma art_len_increment (p : Paths) (s : Nat) (q : Paths)
    (h : p.increment s = some q) : q.art_len = p.art_len :=
  (increment_some_shape p s q h).1

lemma art_len_remove_image (p : Paths) (i : Nat) (q : Paths)
    (h : p.remove_image i = some q) : q.art_len ≤ p.art_len := by
  unfold Paths.remove_image at h
  cases hmv : p.max_viewable with
  | none =>
    rw [hmv] at h
    cases h
    exact le_refl _
  | some len =>
    rw [hmv] at h
    dsimp only at h
    by_cases h1 : i < len
    · rw [if_pos h1] at h
      by_cases h2 : i < p.images.length
      · rw [if_pos h2] at h
        by_cases h3 : len - 1 = 0
        · rw [if_pos h3] at h
          cases h
          show p.art_len - 1 ≤ p.art_len
          omega
        · rw [if_neg h3] at h
          by_cases h4 : i ≥ len - 1
          · rw [if_pos h4] at h
            cases hx : p.index with
            | none => rw [hx] at h; cases h
            | some j =>
              rw [hx] at h
              cases h
              show p.art_len - 1 ≤ p.art_len
              omega
          · rw [if_neg h4] at h
            cases h
            show p.art_len - 1 ≤ p.art_len
            omega
      · rw [if_neg h2] at h
        cases h
    · rw [if_neg h1] at h
      cases h

lemma art_len_applyOp_mono (p : Paths) (op : PathsOp) (hop : op.isSetMax = false)
    (q : Paths) (h : applyOp p op = some q) : q.art_len ≤ p.art_len := by
  cases op with
  | increment s => exact le_of_eq (art_len_increment p s q h)
  | decrement s =>
    cases h
    unfold Paths.decrement
    cases p.index <;> simp
  | removeCurrent =>
    unfold applyOp Paths.remove_current_image at h
    cases hidx : p.index <;> rw [hidx] at h
    · cases h; omega
    · exact art_len_remove_image p _ q h
  | setActualMaximum n => simp [PathsOp.isSetMax] at hop

lemma art_len_runOps_mono (ops : List PathsOp)
    (hops : ∀ op ∈ ops, op.isSetMax = false) (p q : Paths)
    (h : runOps p ops = some q) : q.art_len ≤ p.art_len := by
  induction ops generalizing p with
  | nil => cases h; omega
  | cons op rest ih =>
    simp only [runOps, Option.bind_eq_some] at h
    obtain ⟨r, hr, hrest⟩ := h
    have h1 := art_len_applyOp_mono p op (hops op (by simp)) r hr
    have h2 := ih (fun o ho => hops o (by simp [ho])) r hrest
    omega

lemma current_image_path_eq (p : Paths) (i : Nat) (hidx : p.index = some i) :
    p.current_image_path = p.images.get? i := by
  simp [Paths.current_image_path, hidx]

lemma reverse_some (p : Paths) (i : Nat) (h : PathsInv p)
    (hidx : p.index = some i) :
    p.reverse =
      some { p with images := p.images.reverse, index := some (p.art_len - 1 - i) } := by
  obtain ⟨h1, h2, h3⟩ := h
  have hi : i < p.art_len := h3 i hidx
  have hart : p.art_len ≠ 0 := by omega
  have hngt : ¬ i > p.art_len - 1 := by omega
  have hngt2 : ¬ p.art_len - 1 - i > p.art_len - 1 := by omega
  simp [Paths.reverse, Paths.set_index, Paths.max_viewable_index,
    Paths.max_viewable, hart, hidx, hngt, hngt2]

/-- The registry reached by `PathsBuilder::new` on ten images, the concrete
starting point for the C1 counterexample. -/
def c1Start : Paths := Paths.new (List.replicate 10 "img.png") "./keep" "."

/-- Cap at 2, delete the two viewable images, then raise the cap to 5. -/
def c1Ops : List PathsOp :=
  [.setActualMaximum 2, .removeCurrent, .removeCurrent, .setActualMaximum 5]

/-- The state the C1 counterexample sequence ends in: five viewable images
(eight stored), yet no current index. -/
def c1Final : Paths :=
  { images := List.replicate 8 "img.png"
    dest_folder := "./keep"
    base_dir := "."
    index := none
    art_len := 5
    art_len_orig := some 5 }

/-- C1 counterexample. The claim asserts that after each call the index is
`None` only when there are no viewable images, and otherwise is `Some(i)`
with `i < art_len`. Starting from a non-empty registry of ten images, the
reachable call sequence `set_actual_maximum(2)`, `remove_current_image()`,
`remove_current_image()`, `set_actual_maximum(5)` ends with
`max_viewable = Some(5)` (five viewable images, eight stored) while
`index = None`: `set_actual_maximum` never resurrects a `None` index, so
the "otherwise is Some(i)" half of the claim is false. -/
theorem riv_C1_counterexample :
    runOps c1Start c1Ops = some c1Final ∧ c1Final.max_viewable = some 5 ∧
      c1Final.images.length = 8 ∧ c1Final.index = none := by
  decide

/-- C1 (amended): starting from any well-formed registry, every sequence of
`increment`/`decrement`/`remove_current_image`/`set_actual_maximum` calls
in which each increment's step stays within `usize` range
(`step + images.len() ≤ usize::MAX`; the source's unchecked `i + step`
addition at src/paths.rs:279 overflows otherwise) completes without
panicking, and after it the index, when present, is strictly below the
effective viewable count `art_len`, and the index is `None` whenever there
are no viewable images. (The index can however also be `None` while
viewable images exist, as the counterexample shows, so `None` does not
imply emptiness.) -/
theorem riv_C1_index_bound_amended (p : Paths) (h : PathsInv p)
    (ops : List PathsOp)
    (hsteps : ∀ s, PathsOp.increment s ∈ ops → s + p.images.length ≤ usizeMax) :
    ∃ q, runOps p ops = some q ∧ (∀ i, q.index = some i → i < q.art_len) ∧
      (q.art_len = 0 → q.index = none) := by
  obtain ⟨q, hq, hinv⟩ := inv_runOps ops p h hsteps
  exact ⟨q, hq, hinv.2.2, hinv.2.1⟩

/-- A small concrete registry used as witness input. -/
def smallStart : Paths := Paths.new ["a.png", "b.png", "c.png"] "./keep" "."

/-- Witness for the amended C1 theorem at a concrete registry and call
sequence. -/
theorem riv_C1_index_bound_amended_witness :
    ∃ q, runOps smallStart [PathsOp.increment 2, PathsOp.removeCurrent] = some q ∧
      (∀ i, q.index = some i → i < q.art_len) ∧ (q.art_len = 0 → q.index = none) :=
  riv_C1_index_bound_amended smallStart (by decide)
    [PathsOp.increment 2, PathsOp.removeCurrent]
    (by
      intro s hs
      simp only [List.mem_cons, List.not_mem_nil, or_false] at hs
      rcases hs with hs | hs
      · cases hs
        decide
      · cases hs)

/-- The registry of the C2 scenario: 100 paths with soft cap 20. -/
def c2Start : Paths :=
  (Paths.new (List.replicate 100 "img.png") "./keep" ".").with_maximum_viewable 20

/-- C2: `set_actual_maximum(0)` always clears the soft cap, making the
effective viewable count (`art_len`) equal to `images.len()` while leaving
the image list untouched; and the concrete scenario holds: on 100 paths
with cap 20, `increment(50)` stops at index 19, then after
`set_actual_maximum(0)` a further `increment(50)` reaches 69 and
`increment(999)` clamps at 99. -/
theorem riv_C2_soft_cap_zero_clears :
    (∀ p : Paths, (p.set_actual_maximum 0).art_len =
        (p.set_actual_maximum 0).images.length ∧
      (p.set_actual_maximum 0).images = p.images) ∧
    (runOps c2Start [.increment 50]).map (fun q => q.index) = some (some 19) ∧
    (runOps c2Start [.increment 50, .setActualMaximum 0, .increment 50]).map
      (fun q => q.index) = some (some 69) ∧
    (runOps c2Start [.increment 50, .setActualMaximum 0, .increment 50,
      .increment 999]).map (fun q => q.index) = some (some 99) := by
  constructor
  · intro p
    constructor <;> simp [Paths.set_actual_maximum]
  · exact ⟨by decide, by decide, by decide⟩

/-- Ten concrete images, input of the C3 counterexample. -/
def c3TenImages : List String := List.replicate 10 "img.png"

/-- C3 counterexample. The claim says the skip size is
`max(1, images.len() / 10)`, but `compute_skip_size` computes
`images.len() / 10 + 1` (then redundantly clamps below by 1): on ten
images the code gives 2 while the claimed formula gives 1. -/
theorem riv_C3_counterexample :
    compute_skip_size c3TenImages = 2 ∧ max 1 (c3TenImages.length / 10) = 1 := by
  decide

/-- C3 (amended): the skip size used by SkipForward/SkipBack is
`images.len() / 10 + 1` — roughly a 10% jump, and at least 1 so progress
is guaranteed on small sets — and SkipForward advances the registry by
`skip_size * times`. -/
theorem riv_C3_skip_size_amended :
    (∀ images : List String,
      compute_skip_size images = images.length / 10 + 1 ∧
        1 ≤ compute_skip_size images) ∧
    (∀ (p : Paths) (times : Nat),
      p.skip_forward times = p.increment ((p.images.length / 10 + 1) * times)) := by
  constructor
  · intro images
    refine ⟨?_, ?_⟩
    · show max 1 (images.length / 10 + 1) = images.length / 10 + 1
      omega
    · show 1 ≤ max 1 (images.length / 10 + 1)
      omega
  · intro p times
    have h : compute_skip_size p.images = p.images.length / 10 + 1 := by
      show max 1 (p.images.length / 10 + 1) = p.images.length / 10 + 1
      omega
    rw [Paths.skip_forward, h]

/-- Four images with a soft cap of 2, current image `a.png`: the input of
the C4 counterexample. -/
def c4Start : Paths :=
  (Paths.new ["a.png", "b.png", "c.png", "d.png"] "./keep" ".").with_maximum_viewable 2

/-- C4 counterexample. The claim says `reverse()` keeps the current path
current "including when a soft cap smaller than `images.len()` is set".
With four images, cap 2 and current image `a.png` (index 0), `reverse()`
reverses the whole vector but remaps the index only within the capped
range (`new_index = 1 - 0 = 1`), so the current path becomes `c.png`. -/
theorem riv_C4_counterexample :
    c4Start.current_image_path = some "a.png" ∧
    (c4Start.reverse).map (fun q => q.images) =
      some ["d.png", "c.png", "b.png", "a.png"] ∧
    (c4Start.reverse).bind Paths.current_image_path = some "c.png" := by
  decide

/-- C4 (amended): for a well-formed registry with a current index,
`reverse()` reverses `images` and remaps the index as
`new_index = max_viewable_index - old_index`; the path that was current
stays current when no soft cap restricts the view
(`art_len = images.len()`), but not in general under a smaller cap. -/
theorem riv_C4_reverse_amended (p : Paths) (i : Nat) (h : PathsInv p)
    (hidx : p.index = some i) :
    p.max_viewable_index = some (p.art_len - 1) ∧
    ∃ q, p.reverse = some q ∧ q.images = p.images.reverse ∧
      q.index = some (p.art_len - 1 - i) ∧
      (p.art_len = p.images.length →
        q.current_image_path = p.current_image_path) := by
  have hi : i < p.art_len := h.2.2 i hidx
  have hart : p.art_len ≠ 0 := by omega
  refine ⟨max_viewable_index_of_pos p hart, _, reverse_some p i h hidx, rfl, rfl, ?_⟩
  intro hfull
  have hi' : i < p.images.length := by omega
  rw [current_image_path_eq p i hidx, current_image_path_eq _ (p.art_len - 1 - i) rfl]
  show (p.images.reverse).get? (p.art_len - 1 - i) = p.images.get? i
  rw [hfull]
  have hb : p.images.length - 1 - i < p.images.length := by omega
  rw [List.get?_reverse hb]
  congr 1
  omega

/-- Witness for the amended C4 theorem on a concrete uncapped registry. -/
theorem riv_C4_reverse_amended_witness :
    smallStart.max_viewable_index = some (smallStart.art_len - 1) ∧
    ∃ q, smallStart.reverse = some q ∧ q.images = smallStart.images.reverse ∧
      q.index = some (smallStart.art_len - 1 - 0) ∧
      (smallStart.art_len = smallStart.images.length →
        q.current_image_path = smallStart.current_image_path) :=
  riv_C4_reverse_amended smallStart 0 (by decide) (by decide)

/-- C5: on any registry satisfying the spec's data-model invariant (the
index is present exactly when something is viewable, and within bounds),
`reverse()` applied twice panics nowhere and returns `images` to its
original order and `index` to its original value. -/
theorem riv_C5_reverse_involution (p : Paths) (h : PathsInv p)
    (hpresent : p.index = none → p.art_len = 0) :
    ∃ q r, p.reverse = some q ∧ q.reverse = some r ∧
      r.images = p.images ∧ r.index = p.index := by
  by_cases hart : p.art_len = 0
  · have hidx : p.index = none := h.2.1 hart
    have he : p.reverse = some { p with images := p.images.reverse } := by
      simp [Paths.reverse, Paths.max_viewable_index, Paths.max_viewable, hart]
    have he2 : Paths.reverse { p with images := p.images.reverse } =
        some { p with images := p.images.reverse.reverse } := by
      simp [Paths.reverse, Paths.max_viewable_index, Paths.max_viewable, hart]
    exact ⟨_, _, he, he2, by simp, rfl⟩
  · cases hidx : p.index with
    | none => exact absurd (hpresent hidx) hart
    | some i =>
      have hi : i < p.art_len := h.2.2 i hidx
      have he := reverse_some p i h hidx
      have hq : PathsInv { p with
          images := p.images.reverse, index := some (p.art_len - 1 - i) } := by
        refine ⟨?_, ?_, ?_⟩
        · show p.art_len ≤ (p.images.reverse).length
          rw [List.length_reverse]
          exact h.1
        · intro h0
          have h0' : p.art_len = 0 := h0
          exact absurd h0' hart
        · intro j hj
          have hj' : some (p.art_len - 1 - i) = some j := hj
          cases hj'
          show p.art_len - 1 - i < p.art_len
          omega
      have he2 := reverse_some _ (p.art_len - 1 - i) hq rfl
      refine ⟨_, _, he, he2, by simp, ?_⟩
      show some (p.art_len - 1 - (p.art_len - 1 - i)) = some i
      congr 1
      omega

/-- Witness for C5 at a concrete registry. -/
theorem riv_C5_reverse_involution_witness :
    ∃ q r, smallStart.reverse = some q ∧ q.reverse = some r ∧
      r.images = smallStart.images ∧ r.index = smallStart.index :=
  riv_C5_reverse_involution smallStart (by decide) (by decide)

/-- C10: on a well-formed registry whose soft cap is set and exceeded by
`images.len()`, removing the current image decrements the effective
viewable count `art_len` by one even though enough stored images remain to
sustain the old count (the hidden surplus does not become viewable), and
no later sequence of increment/decrement/remove operations (anything short
of `set_actual_maximum` — `reload_images` is likewise excluded) ever grows
`art_len` back. -/
theorem riv_C10_soft_cap_surplus (p : Paths) (cap i : Nat) (h : PathsInv p)
    (hcap : p.art_len_orig = some cap) (hsur : p.art_len < p.images.length)
    (hidx : p.index = some i) :
    ∃ q, p.remove_current_image = some q ∧ q.art_len = p.art_len - 1 ∧
      q.images.length = p.images.length - 1 ∧ p.art_len ≤ q.images.length ∧
      ∀ ops : List PathsOp, (∀ op ∈ ops, op.isSetMax = false) →
        ∀ r, runOps q ops = some r → r.art_len ≤ q.art_len := by
  obtain ⟨q, hq, ha, hl, hinv⟩ := remove_current_some p i h hidx
  refine ⟨q, hq, ha, hl, by omega, ?_⟩
  intro ops hops r hr
  exact art_len_runOps_mono ops hops q r hr

/-- Five images capped at three: witness input for C10. -/
def c10Start : Paths :=
  (Paths.new (List.replicate 5 "img.png") "./keep" ".").with_maximum_viewable 3

/-- Witness for C10 at a concrete capped registry. -/
theorem riv_C10_soft_cap_surplus_witness :
    ∃ q, c10Start.remove_current_image = some q ∧
      q.art_len = c10Start.art_len - 1 ∧
      q.images.length = c10Start.images.length - 1 ∧
      c10Start.art_len ≤ q.images.length ∧
      ∀ ops : List PathsOp, (∀ op ∈ ops, op.isSetMax = false) →
        ∀ r, runOps q ops = some r → r.art_len ≤ q.art_len :=
  riv_C10_soft_cap_surplus c10Start 3 0 (by decide) (by decide) (by decide)
    (by decide)

/-! ## Sorter (src/sort.rs) -/

/-- `SortOrder` (src/sort.rs:55-69). -/
inductive SortOrder where
  | Alphabetical
  | BreadthFirst
  | Date
  | DepthFirst
  | Size
  deriving Repr, DecidableEq

/-- External filesystem metadata oracle for the `Size` and `Date`
comparators: `get_size` with unreadable sizes already defaulted to `0`
(src/sort.rs:76) and `file_get_date` with unreadable metadata defaulted to
"now" (src/sort.rs:106-121), as an abstract timestamp. -/
structure FsMeta where
  size : String → Nat
  mtime : String → Nat

/-- Split a character list at every occurrence of `sep` (kept executable
on characters so that concrete evaluations reduce in the kernel). -/
def split_on_char (sep : Char) : List Char → List (List Char)
  | [] => [[]]
  | c :: rest =>
    let r := split_on_char sep rest
    if c = sep then [] :: r
    else
      match r with
      | [] => [[c]]
      | g :: gs => (c :: g) :: gs

/-- `calculate_depth` (src/sort.rs:90-92): `path.ancestors().count()`; for
the relative, normalized paths considered here this is the component count
plus one. -/
def calculate_depth (path : String) : Nat :=
  (split_on_char '/' path.toList).length + 1

/-- Keep everything of a file name up to (excluding) its last `.`; the
name itself when it has no `.`. -/
def before_last_dot (cs : List Char) : List Char :=
  if cs.contains '.' then
    (((cs.reverse).dropWhile (fun c => c ≠ '.')).drop 1).reverse
  else cs

/-- Rust `Path::file_name` for the string paths considered here: the last
`/`-separated component; `none` for paths with no file name. -/
def file_name (path : String) : Option String :=
  match (split_on_char '/' path.toList).getLast? with
  | none => none
  | some last =>
    if last = [] ∨ last = ['.'] ∨ last = ['.', '.'] then none
    else some (String.mk last)

/-- Rust `Path::file_stem`: the file name up to its final `.`; a leading
`.` (dotfile marker) does not count as an extension separator. -/
def file_stem (path : String) : Option String :=
  (file_name path).map (fun name =>
    match name.toList with
    | '.' :: rest => String.mk ('.' :: before_last_dot rest)
    | cs => String.mk (before_last_dot cs))

/-- `trim_hidden` (src/sort.rs:95-103): if the file name starts with a
`.`, remove it. The source `unwrap_or_else` panics when the file has no
name; that case is modelled as `""` and is unreachable for the image paths
considered (they always carry a file name). -/
def trim_hidden : Option String → String
  | none => ""
  | some name =>
    match name.toList with
    | '.' :: rest => String.mk rest
    | _ => name

/-- Numeric value of a run of decimal digit characters. -/
def digits_val (l : List Char) : Nat :=
  l.foldl (fun acc c => acc * 10 + (c.toNat - '0'.toNat)) 0

/-- Modelled from the spec: the natural-order comparison of the external
`natord` crate (not part of this repository) on already-lowercased
character lists — "natural-order (numeric substrings compare
numerically)": maximal digit runs are compared by numeric value, other
characters one by one. -/
def natural_compare_fuel : Nat → List Char → List Char → Ordering
  | 0, _, _ => .eq
  | _ + 1, [], [] => .eq
  | _ + 1, [], _ :: _ => .lt
  | _ + 1, _ :: _, [] => .gt
  | fuel + 1, a :: as, b :: bs =>
    if a.isDigit && b.isDigit then
      match compare (digits_val ((a :: as).takeWhile Char.isDigit))
          (digits_val ((b :: bs).takeWhile Char.isDigit)) with
      | .eq =>
        natural_compare_fuel fuel ((a :: as).dropWhile Char.isDigit)
          ((b :: bs).dropWhile Char.isDigit)
      | o => o
    else
      match compare a b with
      | .eq => natural_compare_fuel fuel as bs
      | o => o

/-- `natural_compare_fuel` with enough fuel that it never runs out (every
step strictly shrinks the combined input length). -/
def natural_compare (l1 l2 : List Char) : Ordering :=
  natural_compare_fuel (l1.length + l2.length + 1) l1 l2

/-- Modelled from the spec: `natord::compare_ignore_case` (external
crate) — case-insensitive natural-order comparison. -/
def natord_compare_ignore_case (a b : String) : Ordering :=
  natural_compare (a.toList.map Char.toLower) (b.toList.map Char.toLower)

/-- `SortOrder::file_compare` (src/sort.rs:73-87): `Size` and `Date`
compare the oracle's values descending, `Alphabetical` compares
dot-trimmed file stems in case-insensitive natural order, and
`DepthFirst`/`BreadthFirst` compare component depth descending/ascending. -/
def SortOrder.file_compare (fs : FsMeta) : SortOrder → String → String → Ordering
  | .Size, a, b => compare (fs.size b) (fs.size a)
  | .Date, a, b => compare (fs.mtime b) (fs.mtime a)
  | .Alphabetical, a, b =>
    natord_compare_ignore_case (trim_hidden (file_stem a))
      (trim_hidden (file_stem b))
  | .DepthFirst, a, b => compare (calculate_depth b) (calculate_depth a)
  | .BreadthFirst, a, b => compare (calculate_depth a) (calculate_depth b)

/-- `Sorter` (src/sort.rs:18-23). -/
structure Sorter where
  sort_order : SortOrder
  reverse : Bool
  deriving Repr, DecidableEq

/-- Stable insertion of one element: it goes before the first element it
does not compare `Greater` to. -/
def insert_by (cmp : String → String → Ordering) (x : String) :
    List String → List String
  | [] => [x]
  | y :: ys =>
    match cmp x y with
    | .gt => y :: insert_by cmp x ys
    | _ => x :: y :: ys

/-- Stable insertion sort, modelling Rust's stable `slice::sort_by`. -/
def sort_by (cmp : String → String → Ordering) : List String → List String
  | [] => []
  | x :: xs => insert_by cmp x (sort_by cmp xs)

/-- `Sorter::sort` (src/sort.rs:45-51): sort by the configured comparator,
then reverse when the reverse flag is set. -/
def Sorter.sort (s : Sorter) (fs : FsMeta) (paths : List String) : List String :=
  let sorted := sort_by (s.sort_order.file_compare fs) paths
  if s.reverse then sorted.reverse else sorted

/-! ## UI state machine (src/ui.rs) -/

/-- `ZoomAction` (src/ui.rs:160-165). -/
inductive ZoomAction where
  | In
  | Out
  deriving Repr, DecidableEq

/-- `RotationDirection` (src/ui.rs:71-76). -/
inductive RotationDirection where
  | Clockwise
  | CounterClockwise
  deriving Repr, DecidableEq

/-- `PanAction` (src/ui.rs:169-178). -/
inductive PanAction where
  | Left
  | Right
  | Up
  | Down
  deriving Repr, DecidableEq

/-- `Action` (src/ui.rs:12-67). The borrowed `&str` of `KeyboardInput` is
modelled as an owned `String`. -/
inductive Action where
  | Quit
  | ToggleFullscreen
  | ReRender
  | SwitchCommandMode
  | Backspace
  | KeyboardInput (text : String)
  | SwitchNormalMode
  | SwitchMultiNormalMode
  | ToggleFit
  | CenterImage
  | FlipHorizontal
  | FlipVertical
  | Next
  | Prev
  | First
  | Last
  | SkipForward
  | SkipBack
  | Zoom (z : ZoomAction)
  | Rotate (r : RotationDirection)
  | Pan (p : PanAction)
  | Copy
  | Move
  | Delete
  | Trash
  | Noop
  deriving Repr, DecidableEq

/-- `ProcessAction` (src/ui.rs:123-129): perform `action` `times` times. -/
structure ProcessAction where
  action : Action
  times : Nat
  deriving Repr, DecidableEq

/-- `ProcessAction::default` (src/ui.rs:149-156). -/
def ProcessAction.default : ProcessAction := { action := .Noop, times := 1 }

/-- `MultiNormalAction` (src/ui.rs:85-102). -/
inductive MultiNormalAction where
  | ReRender
  | MoreInput
  | Repeat (pa : ProcessAction)
  | SwitchBackNormalMode
  | Cancel
  | Quit
  | Noop
  deriving Repr, DecidableEq

/-- `Mode` (src/ui.rs:181-198). -/
inductive Mode where
  | Normal
  | MultiNormal
  | Command (text : String)
  | Error (message : String)
  | Success (message : String)
  | Exit
  deriving Repr, DecidableEq

/-- `HelpRender` (src/ui.rs:201-209). -/
inductive HelpRender where
  | None
  | Normal
  | Command
  deriving Repr, DecidableEq

/-- `RotAngle` (src/ui.rs:257-267). -/
inductive RotAngle where
  | Up
  | Right
  | Down
  | Left
  deriving Repr, DecidableEq

/-- `Register` (src/ui.rs:211-223). -/
structure Register where
  cur_action : ProcessAction
  deriving Repr, DecidableEq

/-- `State` (src/ui.rs:226-255). The continuous view state (`scale`,
`pan_x`, `pan_y`: `f32`) and the wall-clock `rerender_time : Instant` are
outside the shallow embedding (floating point, real time) and are not
modelled; no claim concerns them. -/
structure State where
  render_infobar : Bool
  render_help : HelpRender
  fullscreen : Bool
  mode : Mode
  last_action : ProcessAction
  flip_horizontal : Bool
  flip_vertical : Bool
  rot_angle : RotAngle
  register : Register
  deriving Repr, DecidableEq

/-- `State::default` (src/ui.rs:290-310), restricted to the modelled
fields. -/
def State.initial : State :=
  { render_infobar := true
    render_help := .None
    fullscreen := false
    mode := .Normal
    last_action := ProcessAction.default
    flip_horizontal := false
    flip_vertical := false
    rot_angle := .Up
    register := { cur_action := { action := .Noop, times := 1 } } }

/-- `State::process_action` (src/ui.rs:330-343): record the action as
`last_action` — except `Noop`, `Quit`, `ReRender` and
`SwitchMultiNormalMode` — and return it. -/
def State.process_action (st : State) (pa : ProcessAction) :
    State × ProcessAction :=
  match pa.action with
  | .Noop | .Quit | .ReRender | .SwitchMultiNormalMode => (st, pa)
  | _ => ({ st with last_action := pa }, pa)

/-- The SDL keycodes matched by the input interpreters (external input
interface). -/
inductive Keycode where
  | Left
  | Right
  | Up
  | Down
  | Delete
  | Escape
  | PageUp
  | PageDown
  | Home
  | End
  | Period
  | Backspace
  | F11
  | OtherKey
  deriving Repr, DecidableEq

/-- The SDL key modifiers distinguished by the input interpreters. -/
inductive KeyMod where
  | LSHIFTMOD
  | RSHIFTMOD
  | NOMOD
  | OtherMod
  deriving Repr, DecidableEq

/-- The SDL window events matched by the input interpreters. -/
inductive WinEvent where
  | Exposed
  | Resized
  | SizeChanged
  | Maximized
  | OtherWin
  deriving Repr, DecidableEq

/-- The SDL mouse buttons matched by the input interpreters. -/
inductive MouseBtn where
  | Left
  | OtherBtn
  deriving Repr, DecidableEq

/-- The SDL events consumed by the mode state machine (external input
interface): quit, text input, key down (with optional keycode and
modifier), window events and mouse-button-up. -/
inductive Event where
  | Quit
  | TextInput (text : String)
  | KeyDown (keycode : Option Keycode) (keymod : KeyMod)
  | Window (win_event : WinEvent)
  | MouseButtonUp (mouse_btn : MouseBtn)
  | OtherEvent
  deriving Repr, DecidableEq

/-- `process_normal_mode` (src/ui.rs:450-548). Mutation of `state` is made
explicit: the result pairs the updated state with the produced
`ProcessAction` (every `.into()` carries `times = 1`). -/
def process_normal_mode (state : State) (event : Event) :
    State × ProcessAction :=
  match event with
  | .Quit => (state, ⟨.Quit, 1⟩)
  | .TextInput text =>
    match text with
    | "1" => (seed_digit state 1, ⟨.SwitchMultiNormalMode, 1⟩)
    | "2" => (seed_digit state 2, ⟨.SwitchMultiNormalMode, 1⟩)
    | "3" => (seed_digit state 3, ⟨.SwitchMultiNormalMode, 1⟩)
    | "4" => (seed_digit state 4, ⟨.SwitchMultiNormalMode, 1⟩)
    | "5" => (seed_digit state 5, ⟨.SwitchMultiNormalMode, 1⟩)
    | "6" => (seed_digit state 6, ⟨.SwitchMultiNormalMode, 1⟩)
    | "7" => (seed_digit state 7, ⟨.SwitchMultiNormalMode, 1⟩)
    | "8" => (seed_digit state 8, ⟨.SwitchMultiNormalMode, 1⟩)
    | "9" => (seed_digit state 9, ⟨.SwitchMultiNormalMode, 1⟩)
    | "c" => (state, ⟨.Copy, 1⟩)
    | "d" => (state, ⟨.Trash, 1⟩)
    | "D" => (state, ⟨.Delete, 1⟩)
    | "f" => (state, ⟨.ToggleFullscreen, 1⟩)
    | "g" => (state, ⟨.First, 1⟩)
    | "G" => (state, ⟨.Last, 1⟩)
    | "h" => (state, ⟨.FlipHorizontal, 1⟩)
    | "?" => (toggle_normal_help state, ⟨.ReRender, 1⟩)
    | "H" => (state, ⟨.Pan .Left, 1⟩)
    | "i" => (state, ⟨.Zoom .In, 1⟩)
    | "j" => (state, ⟨.Next, 1⟩)
    | "J" => (state, ⟨.Pan .Down, 1⟩)
    | "k" => (state, ⟨.Prev, 1⟩)
    | "K" => (state, ⟨.Pan .Up, 1⟩)
    | "L" => (state, ⟨.Pan .Right, 1⟩)
    | "m" => (state, ⟨.Move, 1⟩)
    | "o" => (state, ⟨.Zoom .Out, 1⟩)
    | "q" => (state, ⟨.Quit, 1⟩)
    | "r" => (state, ⟨.Rotate .Clockwise, 1⟩)
    | "R" => (state, ⟨.Rotate .CounterClockwise, 1⟩)
    | "t" => (toggle_infobar state, ⟨.ReRender, 1⟩)
    | "v" => (state, ⟨.FlipVertical, 1⟩)
    | "w" => (state, ⟨.SkipForward, 1⟩)
    | "b" => (state, ⟨.SkipBack, 1⟩)
    | "z" => (state, ⟨.ToggleFit, 1⟩)
    | "Z" => (state, ⟨.CenterImage, 1⟩)
    | ":" => (state, ⟨.SwitchCommandMode, 1⟩)
    | _ => (state, ⟨.Noop, 1⟩)
  | .KeyDown (some k) m =>
    if m = .LSHIFTMOD ∨ m = .RSHIFTMOD then
      match k with
      | .Left => (state, ⟨.Pan .Left, 1⟩)
      | .Right => (state, ⟨.Pan .Right, 1⟩)
      | .Up => (state, ⟨.Pan .Up, 1⟩)
      | .Down => (state, ⟨.Pan .Down, 1⟩)
      | _ => (state, ⟨.Noop, 1⟩)
    else
      match k with
      | .Delete => (state, ⟨.Delete, 1⟩)
      | .F11 => (state, ⟨.ToggleFullscreen, 1⟩)
      | .Escape => (state, ⟨.Quit, 1⟩)
      | .PageUp => (state, ⟨.SkipForward, 1⟩)
      | .PageDown => (state, ⟨.SkipBack, 1⟩)
      | .Home => (state, ⟨.First, 1⟩)
      | .End => (state, ⟨.Last, 1⟩)
      | .Period => (state, state.last_action)
      | .Right => (state, ⟨.Next, 1⟩)
      | .Left => (state, ⟨.Prev, 1⟩)
      | .Up => (state, ⟨.Zoom .In, 1⟩)
      | .Down => (state, ⟨.Zoom .Out, 1⟩)
      | _ => (state, ⟨.Noop, 1⟩)
  | .KeyDown none _ => (state, ⟨.Noop, 1⟩)
  | .Window w =>
    match w with
    | .Exposed | .Resized | .SizeChanged | .Maximized => (state, ⟨.ReRender, 1⟩)
    | _ => (state, ⟨.Noop, 1⟩)
  | .MouseButtonUp b =>
    match b with
    | .Left => (state, ⟨.ToggleFit, 1⟩)
    | _ => (state, ⟨.Noop, 1⟩)
  | .OtherEvent => (state, ⟨.Noop, 1⟩)
where
  /-- The digit branch of Normal mode (src/ui.rs:461-467): save the first
  digit in the repeat register before switching to MultiNormal. -/
  seed_digit (st : State) (first_digit : Nat) : State :=
    { st with register :=
      { cur_action := { st.register.cur_action with times := first_digit } } }
  /-- The `"?"` branch (src/ui.rs:475-481): toggle normal-mode help. -/
  toggle_normal_help (st : State) : State :=
    match st.render_help with
    | .Normal => { st with render_help := .None }
    | _ => { st with render_help := .Normal }
  /-- The `"t"` branch (src/ui.rs:494-497): toggle the infobar. -/
  toggle_infobar (st : State) : State :=
    { st with render_infobar := ¬ st.render_infobar }

/-- The digit-accumulation step of `process_multi_normal_mode`
(src/ui.rs:359-367): `previous_count.saturating_mul(10)
.saturating_add(next_digit)`. -/
def accumulate_times (previous_count next_digit : Nat) : Nat :=
  usatAdd (usatMul previous_count 10) next_digit

/-- `process_multi_normal_mode` (src/ui.rs:346-447). `times` is the value
of the repeat register when the event arrives. -/
def process_multi_normal_mode (state : State) (event : Event) :
    State × MultiNormalAction :=
  let times := state.register.cur_action.times
  match event with
  | .Quit => (state, .Quit)
  | .TextInput text =>
    match text with
    | "0" => multi_digit state 0
    | "1" => multi_digit state 1
    | "2" => multi_digit state 2
    | "3" => multi_digit state 3
    | "4" => multi_digit state 4
    | "5" => multi_digit state 5
    | "6" => multi_digit state 6
    | "7" => multi_digit state 7
    | "8" => multi_digit state 8
    | "9" => multi_digit state 9
    | "c" => (state, .Repeat ⟨.Copy, times⟩)
    | "d" => (state, .Repeat ⟨.Trash, times⟩)
    | "D" => (state, .Repeat ⟨.Delete, times⟩)
    | "f" => (state, .Repeat ⟨.ToggleFullscreen, times⟩)
    | "g" => (state, .Repeat ⟨.First, times⟩)
    | "G" => (state, .Repeat ⟨.Last, times⟩)
    | "h" => (state, .Repeat ⟨.FlipHorizontal, times⟩)
    | "?" => (toggle_multi_help state, .Repeat ⟨.ReRender, times⟩)
    | "H" => (state, .Repeat ⟨.Pan .Left, times⟩)
    | "i" => (state, .Repeat ⟨.Zoom .In, times⟩)
    | "j" => (state, .Repeat ⟨.Next, times⟩)
    | "J" => (state, .Repeat ⟨.Pan .Down, times⟩)
    | "k" => (state, .Repeat ⟨.Prev, times⟩)
    | "K" => (state, .Repeat ⟨.Pan .Up, times⟩)
    | "L" => (state, .Repeat ⟨.Pan .Right, times⟩)
    | "m" => (state, .Repeat ⟨.Move, times⟩)
    | "o" => (state, .Repeat ⟨.Zoom .Out, times⟩)
    | "q" => (state, .Quit)
    | "r" => (state, .Repeat ⟨.Rotate .Clockwise, times⟩)
    | "R" => (state, .Repeat ⟨.Rotate .CounterClockwise, times⟩)
    | "t" => (toggle_multi_infobar state, .Repeat ⟨.ReRender, times⟩)
    | "v" => (state, .Repeat ⟨.FlipVertical, times⟩)
    | "w" => (state, .Repeat ⟨.SkipForward, times⟩)
    | "b" => (state, .Repeat ⟨.SkipBack, times⟩)
    | "z" => (state, .Repeat ⟨.ToggleFit, times⟩)
    | "Z" => (state, .Repeat ⟨.CenterImage, times⟩)
    | _ => (state, .Noop)
  | .KeyDown (some k) m =>
    if m = .LSHIFTMOD ∨ m = .RSHIFTMOD then
      match k with
      | .Left => (state, .Repeat ⟨.Pan .Left, times⟩)
      | .Right => (state, .Repeat ⟨.Pan .Right, times⟩)
      | .Up => (state, .Repeat ⟨.Pan .Up, times⟩)
      | .Down => (state, .Repeat ⟨.Pan .Down, times⟩)
      | _ => (state, .Noop)
    else
      match k with
      | .Delete => (state, .Repeat ⟨.Delete, times⟩)
      | .Escape => (state, .Cancel)
      | .PageUp => (state, .Repeat ⟨.SkipForward, times⟩)
      | .PageDown => (state, .Repeat ⟨.SkipBack, times⟩)
      | .Period =>
        let st' := { state with last_action :=
          { state.last_action with times := times } }
        (st', .Repeat st'.last_action)
      | .Right => (state, .Repeat ⟨.Next, times⟩)
      | .Left => (state, .Repeat ⟨.Prev, times⟩)
      | .Up => (state, .Repeat ⟨.Zoom .In, times⟩)
      | .Down => (state, .Repeat ⟨.Zoom .Out, times⟩)
      | .Backspace => (state, .Repeat ⟨.Backspace, 1⟩)
      | _ => (state, .Noop)
  | .KeyDown none _ => (state, .Noop)
  | .Window w =>
    match w with
    | .Exposed | .Resized | .SizeChanged | .Maximized => (state, .ReRender)
    | _ => (state, .Noop)
  | _ => (state, .Noop)
where
  /-- The digit branch (src/ui.rs:359-367): accumulate with saturating
  arithmetic and keep listening for more input. -/
  multi_digit (st : State) (next_digit : Nat) : State × MultiNormalAction :=
    let previous_count := st.register.cur_action.times
    let new_count := accumulate_times previous_count next_digit
    ({ st with register :=
      { cur_action := { st.register.cur_action with times := new_count } } },
      .MoreInput)
  /-- The `"?"` branch (src/ui.rs:376-382). -/
  toggle_multi_help (st : State) : State :=
    match st.render_help with
    | .Normal => { st with render_help := .None }
    | _ => { st with render_help := .Normal }
  /-- The `"t"` branch (src/ui.rs:396-399). -/
  toggle_multi_infobar (st : State) : State :=
    { st with render_infobar := ¬ st.render_infobar }

/-! ## Program event dispatch (src/program/mod.rs) -/

/-- Modelled from the spec: `Paths::set_index_safe` is called by
`Program::jump_to_image_index` (src/program/mod.rs:552-557) but its
definition is not among the provided sources. Modelled from that caller's
doc comment: "Caps at artificial length or last image if index supplied
is too large"; nothing to do when no images are viewable. -/
def Paths.set_index_safe (p : Paths) (i : Nat) : Paths :=
  match p.max_viewable_index with
  | none => p
  | some m => { p with index := some (if i > m then m else i) }

/-- `Program` (src/program/mod.rs:33-38) minus the rendering `Screen`
(external drawing surface, no algorithmic content). -/
structure Program where
  paths : Paths
  ui_state : State
  sorter : Sorter
  deriving Repr, DecidableEq

/-- The interpretation-and-recording prefix of one `run_normal_mode`
iteration (src/program/mod.rs:767-769): interpret the event with
`process_normal_mode`, then pass the action through
`State::process_action`. -/
def normal_mode_interpret (st : State) (event : Event) :
    State × ProcessAction :=
  let r := process_normal_mode st event
  r.1.process_action r.2

/-- The `SwitchMultiNormalMode` arm of `Program::dispatch_normal`
(src/program/mod.rs:683-686): enter MultiNormal mode. -/
def Program.switch_multi (prog : Program) : Program :=
  { prog with ui_state := { prog.ui_state with mode := .MultiNormal } }

/-- The state effect of one polled event in `run_multi_normal_mode`
(src/program/mod.rs:600-659): interpret the event, and on
`Repeat(process)` record it via `process_action`, then either divide the
repeat register by 10 (`Backspace`), jump via `set_index_safe` (`Last`),
or buffer the action in the register and return to Normal mode. The
rendering calls and the 60 Hz polling loop around this are external. -/
def Program.run_multi_normal_event (prog : Program) (event : Event) : Program :=
  let r := process_multi_normal_mode prog.ui_state event
  let prog1 := { prog with ui_state := r.1 }
  match r.2 with
  | .MoreInput => prog1
  | .Cancel =>
    { prog1 with ui_state := { prog1.ui_state with mode := .Normal } }
  | .Repeat process =>
    let ui2 := (prog1.ui_state.process_action process).1
    match process.action with
    | .Backspace =>
      { prog1 with ui_state := { ui2 with register := { cur_action :=
        { ui2.register.cur_action with
          times := ui2.register.cur_action.times / 10 } } } }
    | .Last =>
      let requested_index := ui2.register.cur_action.times - 1
      { prog1 with
        paths := prog1.paths.set_index_safe requested_index
        ui_state := { ui2 with mode := .Normal } }
    | a =>
      { prog1 with ui_state := { ui2 with
        mode := .Normal
        register := { cur_action :=
          { ui2.register.cur_action with action := a } } } }
  | .SwitchBackNormalMode =>
    { prog1 with ui_state := { prog1.ui_state with mode := .Normal } }
  | .Quit =>
    { prog1 with ui_state := { prog1.ui_state with mode := .Exit } }
  | _ => prog1

/-- C6 counterexample. The claim says the mode-switch actions — among them
`SwitchCommandMode` — are never recorded as the last action. But
`State::process_action` only exempts `Noop`, `Quit`, `ReRender` and
`SwitchMultiNormalMode`: processing `:` in Normal mode (which yields
`SwitchCommandMode`) overwrites `last_action` with it. -/
theorem riv_C6_counterexample :
    (normal_mode_interpret State.initial (Event.TextInput ":")).2 =
      ⟨Action.SwitchCommandMode, 1⟩ ∧
    (normal_mode_interpret State.initial (Event.TextInput ":")).1.last_action =
      ⟨Action.SwitchCommandMode, 1⟩ ∧
    State.initial.last_action = ⟨Action.Noop, 1⟩ := by
  decide

/-- C6 (amended): an action processed in Normal mode is recorded as the
last action, except `Noop`, `Quit`, `ReRender` and
`SwitchMultiNormalMode`, which leave the previous record in place; the
other mode switches `SwitchCommandMode` and `SwitchNormalMode` are
recorded. Stated both for `State::process_action` itself and for the
interpret-then-record prefix of the Normal-mode loop. -/
theorem riv_C6_last_action_amended :
    (∀ (st : State) (pa : ProcessAction),
      (st.process_action pa).1.last_action =
        (if pa.action = .Noop ∨ pa.action = .Quit ∨ pa.action = .ReRender ∨
            pa.action = .SwitchMultiNormalMode then st.last_action else pa) ∧
      (st.process_action pa).2 = pa) ∧
    (∀ (st : State) (e : Event),
      (normal_mode_interpret st e).1.last_action =
        (if (process_normal_mode st e).2.action = .Noop ∨
            (process_normal_mode st e).2.action = .Quit ∨
            (process_normal_mode st e).2.action = .ReRender ∨
            (process_normal_mode st e).2.action = .SwitchMultiNormalMode then
          (process_normal_mode st e).1.last_action
        else (process_normal_mode st e).2)) := by
  have key : ∀ (st : State) (pa : ProcessAction),
      (st.process_action pa).1.last_action =
        (if pa.action = .Noop ∨ pa.action = .Quit ∨ pa.action = .ReRender ∨
            pa.action = .SwitchMultiNormalMode then st.last_action else pa) ∧
      (st.process_action pa).2 = pa := by
    intro st pa
    obtain ⟨a, t⟩ := pa
    cases a <;> simp [State.process_action]
  exact ⟨key, fun st e => (key _ _).1⟩

/-- The starting program of the C7 scenario: Normal mode, default UI
state. -/
def c7Start : Program :=
  { paths := smallStart
    ui_state := State.initial
    sorter := { sort_order := .DepthFirst, reverse := false } }

/-- The C7 scenario after Normal-mode digit `1` (which seeds the register
and switches to MultiNormal) and MultiNormal digits `2`, `3`. -/
def c7AfterDigits : Program :=
  ((Program.switch_multi { c7Start with
      ui_state := (normal_mode_interpret c7Start.ui_state
        (Event.TextInput "1")).1 }).run_multi_normal_event
    (Event.TextInput "2")).run_multi_normal_event (Event.TextInput "3")

/-- C7: in MultiNormal mode each digit updates the repeat accumulator as
`new = old * 10 + digit` with saturating `usize` arithmetic (total, hence
no panic on any input); and concretely, digits `1`, `2`, `3` fed from
Normal mode accumulate to 123, after which a backspace divides the
register by 10, leaving 12. -/
theorem riv_C7_repeat_count :
    (∀ old d : Nat, d ≤ 9 →
      accumulate_times old d = min (old * 10 + d) usizeMax) ∧
    c7AfterDigits.ui_state.register.cur_action.times = 123 ∧
    c7AfterDigits.ui_state.mode = Mode.MultiNormal ∧
    ((c7AfterDigits.run_multi_normal_event
        (Event.KeyDown (some .Backspace) .NOMOD)).ui_state.register.cur_action.times) = 12 := by
  refine ⟨?_, by decide, by decide, by decide⟩
  intro old d hd
  have hmax : usizeMax = 18446744073709551615 := by norm_num [usizeMax]
  simp only [accumulate_times, usatAdd, usatMul, hmax]
  omega

/-- Witness for the saturating-accumulation half of C7 at concrete
values. -/
theorem riv_C7_repeat_count_witness :
    accumulate_times 12 3 = min (12 * 10 + 3) usizeMax :=
  riv_C7_repeat_count.1 12 3 (by decide)

/-! ## Command mode (src/program/command_mode.rs) -/

/-- `Commands` (src/program/command_mode.rs:21-57). -/
inductive Commands where
  | Sort
  | NewGlob
  | Help
  | Quit
  | Reverse
  | DestFolder
  | MaximumImages
  deriving Repr, DecidableEq

/-- `Commands::from_str` (src/program/command_mode.rs:59-78). -/
def Commands.from_str (s : String) : Except String Commands :=
  match s with
  | "sort" => .ok .Sort
  | "ng" | "newglob" => .ok .NewGlob
  | "?" | "help" => .ok .Help
  | "q" | "quit" => .ok .Quit
  | "r" | "reverse" => .ok .Reverse
  | "df" | "destfolder" => .ok .DestFolder
  | "m" | "max" => .ok .MaximumImages
  | _ => .error ("No such command \"" ++ s ++ "\", type :? for command help")

/-- The split of `parse_user_input` (src/program/command_mode.rs:129-148):
everything before the first space is the command, everything after it the
argument string (empty when there is no space). -/
def split_at_first_space : List Char → List Char × Option (List Char)
  | [] => ([], none)
  | c :: rest =>
    if c = ' ' then ([], some rest)
    else
      let r := split_at_first_space rest
      (c :: r.1, r.2)

/-- `parse_user_input` (src/program/command_mode.rs:129-148). -/
def parse_user_input (input : String) : Except String (Commands × String) :=
  let split := split_at_first_space input.toList
  match Commands.from_str (String.mk split.1) with
  | .error e => .error e
  | .ok command => .ok (command, String.mk (split.2.getD []))

/-- Modelled from the spec: `SortOrder::from_str` is generated by clap's
`arg_enum!` macro (an external crate, src/sort.rs:55-69 only declares the
variants): the variant name is matched ASCII-case-insensitively, and an
unrecognized value reports the list of valid values. -/
def SortOrder.from_str (s : String) : Except String SortOrder :=
  let lower := s.toList.map Char.toLower
  if lower = "alphabetical".toList then .ok .Alphabetical
  else if lower = "breadthfirst".toList then .ok .BreadthFirst
  else if lower = "date".toList then .ok .Date
  else if lower = "depthfirst".toList then .ok .DepthFirst
  else if lower = "size".toList then .ok .Size
  else .error "valid values: Alphabetical, BreadthFirst, Date, DepthFirst, Size"

/-- Rust's `str::parse::<usize>` as used by `maximum_viewable`: an
optional leading `+`, then at least one ASCII digit, and the value must
fit in `usize`. -/
def parse_usize (s : String) : Option Nat :=
  let ds :=
    match s.toList with
    | '+' :: rest => rest
    | cs => cs
  if ds = [] then none
  else if ds.all Char.isDigit then
    let v := digits_val ds
    if v ≤ usizeMax then some v else none
  else none

/-- `Program::maximum_viewable` (src/program/command_mode.rs:295-304):
parse the argument, surfacing `Mode::Error` when it is not a number,
otherwise apply `set_actual_maximum`. -/
def Program.maximum_viewable (prog : Program) (maxArg : String) : Program :=
  match parse_usize maxArg with
  | some new_max => { prog with paths := prog.paths.set_actual_maximum new_max }
  | none =>
    { prog with ui_state := { prog.ui_state with
      mode := .Error ("\"" ++ maxArg ++ "\" is not a positive integer") } }

/-- `Program::sort` (src/program/command_mode.rs:250-292). With no
argument: sort with the current settings and return. With an argument:
parse it as a sort order — on failure the source sets
`Mode::Command("Invalid value ...")`, not `Mode::Error` — otherwise
re-sort, then look up the path at the (unchanged) current index in the
sorted list and move the index to its first occurrence (falling back to 0
past the viewable range). `none` models the panics (`position(..)
.unwrap()` and `set_index`). -/
def Program.sort_cmd (fs : FsMeta) (prog : Program) (arguments : String) :
    Option Program :=
  if arguments = "" then
    some { prog with paths :=
      { prog.paths with images := prog.sorter.sort fs prog.paths.images } }
  else
    match SortOrder.from_str arguments with
    | .error e =>
      some { prog with ui_state := { prog.ui_state with
        mode := .Command ("Invalid value \"" ++ arguments ++ "\". " ++ e) } }
    | .ok new_sort_order =>
      let sorter' := { prog.sorter with sort_order := new_sort_order }
      let paths1 :=
        { prog.paths with images := sorter'.sort fs prog.paths.images }
      let prog1 := { prog with sorter := sorter', paths := paths1 }
      match paths1.current_image_path, paths1.max_viewable_index with
      | some target_path, some max_index =>
        match paths1.images.indexOf? target_path with
        | none => none
        | some new_index =>
          if new_index ≤ max_index then
            (paths1.set_index new_index).map (fun p => { prog1 with paths := p })
          else
            (paths1.set_index 0).map (fun p => { prog1 with paths := p })
      | _, _ => some prog1

/-- Outcome of dispatching one command line: a new program state, a panic,
or a continuation into an external collaborator (globbing for `newglob`,
shell expansion for `destfolder`). -/
inductive CommandOutcome where
  | Done (prog : Program)
  | Panicked
  | NewGlobEffect (prog : Program) (pattern : String)
  | DestFolderEffect (prog : Program) (arg : String)
  deriving Repr, DecidableEq

/-- `Program::run_command_mode` after `get_command` has collected the
input line (src/program/command_mode.rs:312-397): the mode is first reset
to Normal (command mode is exited before any command runs); an empty line
cancels; a failed verb parse or a missing required argument surfaces
`Mode::Error`; `?`/`help` toggles the help overlay; `q` exits; `r`
reverses (a panic is modelled as `Panicked`); `m`/`max` parses and applies
the cap; `sort` dispatches to `Program::sort`. `newglob`/`destfolder`
with a non-empty argument continue into their external collaborators. -/
def Program.run_command_dispatch (fs : FsMeta) (prog : Program)
    (input : String) : CommandOutcome :=
  let prog := { prog with ui_state := { prog.ui_state with mode := .Normal } }
  if input = "" then .Done prog
  else
    match parse_user_input input with
    | .error e =>
      .Done { prog with ui_state := { prog.ui_state with mode := .Error e } }
    | .ok (command, arguments) =>
      match command with
      | .NewGlob =>
        if arguments = "" then
          .Done { prog with ui_state := { prog.ui_state with
            mode := .Error "Command \"newglob\" or \":ng\" requires a glob" } }
        else .NewGlobEffect prog arguments
      | .Help =>
        .Done { prog with ui_state := { prog.ui_state with
          render_help :=
            match prog.ui_state.render_help with
            | .Command => .None
            | _ => .Command } }
      | .Quit =>
        .Done { prog with ui_state := { prog.ui_state with mode := .Exit } }
      | .Reverse =>
        match prog.paths.reverse with
        | some paths' => .Done { prog with paths := paths' }
        | none => .Panicked
      | .DestFolder =>
        if arguments = "" then
          .Done { prog with ui_state := { prog.ui_state with
            mode := .Error "Command \":destfolder\" or \":d\" requires a path" } }
        else .DestFolderEffect prog arguments
      | .MaximumImages =>
        if arguments = "" then
          .Done { prog with ui_state := { prog.ui_state with
            mode := .Error "Command \":max\" or \":m\" requires a new maximum number of files to display" } }
        else .Done (prog.maximum_viewable arguments)
      | .Sort =>
        match prog.sort_cmd fs arguments with
        | some prog' => .Done prog'
        | none => .Panicked

/-- Is the mode the `Command` variant? -/
def Mode.isCommandMode : Mode → Bool
  | .Command _ => true
  | _ => false

/-- Is the mode the `Error` variant? -/
def Mode.isErrorMode : Mode → Bool
  | .Error _ => true
  | _ => false

/-- The mode of a `Done` outcome. -/
def doneMode : CommandOutcome → Option Mode
  | .Done prog => some prog.ui_state.mode
  | _ => none

/-- A trivial metadata oracle (the comparators under test ignore it). -/
def fsZero : FsMeta := { size := fun _ => 0, mtime := fun _ => 0 }

/-- C8: of the command-parse failure classes, the unknown verb, the
missing required argument and the non-numeric `max` argument all surface
as `Mode::Error` with command mode already exited — but an invalid sort
order (`sort backwards`) lands in `Mode::Command("Invalid value ...")`
instead of `Mode::Error`, re-entering command mode. This contradicts
`run_command_mode`'s own documentation ("After every command the user is
set either into normal mode or the app terminates") and every sibling
error path, so it is a defect in the code rather than in the claim. -/
theorem riv_C8_sort_invalid_order :
    ((doneMode (c7Start.run_command_dispatch fsZero "sort backwards")).map
      Mode.isCommandMode = some true) ∧
    ((doneMode (c7Start.run_command_dispatch fsZero "sort backwards")).map
      Mode.isErrorMode = some false) ∧
    (doneMode (c7Start.run_command_dispatch fsZero "bogus") =
      some (Mode.Error "No such command \"bogus\", type :? for command help")) ∧
    (doneMode (c7Start.run_command_dispatch fsZero "max") =
      some (Mode.Error "Command \":max\" or \":m\" requires a new maximum number of files to display")) ∧
    ((doneMode (c7Start.run_command_dispatch fsZero "max abc")).map
      Mode.isErrorMode = some true) ∧
    (doneMode (c7Start.run_command_dispatch fsZero "ng") =
      some (Mode.Error "Command \"newglob\" or \":ng\" requires a glob")) ∧
    (doneMode (c7Start.run_command_dispatch fsZero "m 12") =
      some Mode.Normal) := by
  decide

/-- C9: sorting `[".b.png", "a.png"]` with the `Alphabetical` order
compares the dot-trimmed file stems `"a"` and `"b"` case-insensitively in
natural order, so `a.png` sorts before `.b.png`; the comparator is the
natural-order comparison of the trimmed stems (numeric runs comparing
numerically, case ignored). -/
theorem riv_C9_alphabetical_dotfile :
    Sorter.sort { sort_order := .Alphabetical, reverse := false } fsZero
      [".b.png", "a.png"] = ["a.png", ".b.png"] ∧
    trim_hidden (file_stem ".b.png") = "b" ∧
    trim_hidden (file_stem "a.png") = "a" ∧
    SortOrder.file_compare fsZero .Alphabetical "a.png" ".b.png" =
      natord_compare_ignore_case "a" "b" ∧
    natord_compare_ignore_case "a" "b" = .lt ∧
    natord_compare_ignore_case "A2" "a2" = .eq ∧
    natord_compare_ignore_case "img2" "img10" = .lt := by
  decide

end Riv
